import Mathlib

/-!
Verification development for the resp-go RESP3 codec (src/resp3).

The decoder (src/resp3/decoder.go) is embedded as a fueled state machine over
the list of bytes the buffered reader can presently deliver: `bufio.Reader`
state is the remaining byte list, `reader.Buffered()` is its length,
`reader.ReadByte` takes the head, `reader.Read` into a guarded `n`-byte slice
is `take`/`drop`, and `reader.Discard(2)` is `goDiscard2`.  Bytes are `Char`
(all wire data in scope is byte-sized).  Go runtime panics (negative
allocation sizes, unhashable map keys) are an explicit `panicked` outcome.
Machine integers are `Int` with the int64 range enforced where `strconv`
enforces it.  Float values are carried as their wire text (`RVal.float`):
no claim inspects float arithmetic, only framing and parse success, and
`goParseFloatOk` models the accepted `strconv.ParseFloat` surface syntax
(decimal and inf/nan forms; hex-float and underscore forms are omitted as no
code path in scope produces them).
-/

/-- Wire-level decode errors: Go sentinel errors and error values returned by
the decoder (`io.EOF`, `io.ErrUnexpectedEOF`, `strconv` parse errors, the
unsupported-tag error).  `outOfFuel` is an artifact of the fueled embedding
and is unreachable for the fuel `Decode` supplies. -/
inductive RErr where
  | eof
  | unexpectedEOF
  | atoiErr (s : List Char)
  | floatErr (s : List Char)
  | unsupportedTag (c : Char)
  | outOfFuel
  deriving DecidableEq

/-- Decoded RESP3 values, mirroring the dynamic result types of
`Decode`: `string`, `error`, `int64`, `float64` (carried as wire text),
`bool`, `nil`, `[]interface`, and the three map container types the map
classification can produce. -/
inductive RVal where
  | str (s : List Char)
  | errv (msg : List Char)
  | int (n : Int)
  | float (lit : List Char)
  | bool (b : Bool)
  | null
  | arr (xs : List RVal)
  | mapStr (m : List (List Char × RVal))
  | mapInt (m : List (Int × RVal))
  | mapAny (m : List (RVal × RVal))

/-- Outcome of a decode step: a value, a Go error, or a runtime panic. -/
inductive DOut (α : Type) where
  | ok (v : α)
  | fail (e : RErr)
  | panicked

/-- Splits off the prefix of `l` up to and including the first newline, as
`bufio.Reader.ReadString` with delimiter a newline does; `none` when no
newline is present (the underlying source is exhausted and `ReadString`
reports `io.EOF` after consuming everything). -/
def splitAtNL : List Char → Option (List Char × List Char)
  | [] => none
  | c :: t =>
    if c = '\n' then some ([c], t)
    else (splitAtNL t).map fun p => (c :: p.1, p.2)

/-- Embedding of `readLineCRLF` (src/resp3/util.go): read through the first
newline; `io.EOF` when the source has no newline; `io.ErrUnexpectedEOF` when
the line does not end in CR-LF; otherwise the line with the trailing CR-LF
stripped. -/
def readLineCRLF (buf : List Char) : Except RErr (List Char) × List Char :=
  match splitAtNL buf with
  | none => (.error .eof, [])
  | some (line, rest) =>
    match line.reverse with
    | '\n' :: '\r' :: tokRev => (.ok tokRev.reverse, rest)
    | _ => (.error .unexpectedEOF, rest)

/-- Base-10 value of a digit string (most significant first). -/
def digitsToNat (l : List Char) : Nat :=
  l.foldl (fun a c => a * 10 + (c.toNat - 48)) 0

/-- A nonempty all-digit string parses to its value, otherwise fails. -/
def parseDigits (l : List Char) : Option Nat :=
  if l = [] then none
  else if l.all Char.isDigit then some (digitsToNat l) else none

def int64Max : Int := 2 ^ 63 - 1

def int64Min : Int := -(2 ^ 63)

/-- Embedding of `strconv.Atoi`: optional sign, base-10 digits, value
must fit in int64; `none` is a non-nil parse error. -/
def goAtoi (l : List Char) : Option Int :=
  match l with
  | [] => none
  | c :: rest =>
    if c = '+' then
      (parseDigits rest).bind fun m =>
        if (m : Int) ≤ int64Max then some (m : Int) else none
    else if c = '-' then
      (parseDigits rest).bind fun m =>
        if int64Min ≤ -(m : Int) then some (-(m : Int)) else none
    else
      (parseDigits l).bind fun m =>
        if (m : Int) ≤ int64Max then some (m : Int) else none

def isSignChar (c : Char) : Bool := c = '+' || c = '-'

/-- Exponent suffix accepted by `strconv.ParseFloat`: empty, or e/E with an
optionally signed nonempty digit string. -/
def floatExpOk : List Char → Bool
  | [] => true
  | e :: r =>
    (e = 'e' || e = 'E') &&
      (match r with
       | [] => false
       | c :: r2 =>
         if isSignChar c then !r2.isEmpty && r2.all Char.isDigit
         else r.all Char.isDigit)

/-- Unsigned decimal mantissa with optional fraction, then exponent. -/
def floatBodyOk (l : List Char) : Bool :=
  let sp := l.span Char.isDigit
  match sp.2 with
  | '.' :: r2 =>
    let sp2 := r2.span Char.isDigit
    (!sp.1.isEmpty || !sp2.1.isEmpty) && floatExpOk sp2.2
  | _ => !sp.1.isEmpty && floatExpOk sp.2

/-- Surface syntax accepted by `strconv.ParseFloat` for the inputs in scope:
optional sign, then inf/infinity/nan (case-insensitive) or a decimal. -/
def goParseFloatOk (l : List Char) : Bool :=
  let body := match l with
    | c :: rest => if isSignChar c then rest else l
    | [] => l
  let lower := body.map Char.toLower
  lower = ['i', 'n', 'f'] ||
    lower = ['i', 'n', 'f', 'i', 'n', 'i', 't', 'y'] ||
    lower = ['n', 'a', 'n'] ||
    floatBodyOk body

/-- Embedding of `bufio.Reader.Discard(2)`: drops two bytes; when fewer are
available it consumes what is there and reports the source's `io.EOF`. -/
def goDiscard2 (buf : List Char) : Except RErr Unit × List Char :=
  if 2 ≤ buf.length then (.ok (), buf.drop 2) else (.error .eof, [])

/-- The error remap every decode case applies to a failed read: source
exhaustion (`io.EOF` or `io.ErrUnexpectedEOF`) becomes `io.ErrUnexpectedEOF`,
any other error passes through. -/
def remapEOF : RErr → RErr
  | .eof => .unexpectedEOF
  | .unexpectedEOF => .unexpectedEOF
  | e => e

def RVal.isNull : RVal → Bool
  | .null => true
  | _ => false

def RVal.isStr : RVal → Bool
  | .str _ => true
  | _ => false

def RVal.isInt : RVal → Bool
  | .int _ => true
  | _ => false

/-- Whether a decoded value is usable as a Go map key: composite values
(slices, maps) are unhashable and make the runtime panic on insertion. -/
def RVal.isHashable : RVal → Bool
  | .arr _ => false
  | .mapStr _ => false
  | .mapInt _ => false
  | .mapAny _ => false
  | _ => true

/-- Key equality for decoded map keys, as Go interface equality on the
comparable (scalar) cases; composite keys never reach an insertion.  Error
values are compared by message (Go compares `errors.New` pointers, but no
code path in scope distinguishes equal-message error keys). -/
def keyEq : RVal → RVal → Bool
  | .str a, .str b => a = b
  | .int a, .int b => a = b
  | .float a, .float b => a = b
  | .bool a, .bool b => a = b
  | .errv a, .errv b => a = b
  | .null, .null => true
  | _, _ => false

/-- Go map assignment on an insertion-ordered association list: overwrite the
value at an existing (equal) key, keeping the originally stored key, else
append. -/
def insertAssoc : List (RVal × RVal) → RVal → RVal → List (RVal × RVal)
  | [], k, v => [(k, v)]
  | p :: t, k, v =>
    if keyEq p.1 k then (p.1, v) :: t else p :: insertAssoc t k v

/-- The '%' case's per-key flag update: a string key clears `isAllInt64Keys`,
an int64 key clears `isAllStringKeys`, any other key clears both. -/
def updFlags (k : RVal) (aS aI : Bool) : Bool × Bool :=
  match k with
  | .str _ => (aS, false)
  | .int _ => (false, aI)
  | _ => (false, false)

/-- Number of iterations of the Go loop with counter starting at 0 and
stepping by 2 while below `size`. -/
def mapIters (size : Int) : Nat :=
  if size ≤ 0 then 0 else ((size + 1).tdiv 2).toNat

def extractStrPairs (m : List (RVal × RVal)) : List (List Char × RVal) :=
  m.filterMap fun p =>
    match p.1 with
    | .str s => some (s, p.2)
    | _ => none

def extractIntPairs (m : List (RVal × RVal)) : List (Int × RVal) :=
  m.filterMap fun p =>
    match p.1 with
    | .int n => some (n, p.2)
    | _ => none

/-- The '%' case's final container choice from the two classification flags:
string-keyed map if `isAllStringKeys`, else int64-keyed if `isAllInt64Keys`,
else the generic map. -/
def mapFinish (tm : List (RVal × RVal)) (aS aI : Bool) : RVal :=
  if aS then .mapStr (extractStrPairs tm)
  else if aI then .mapInt (extractIntPairs tm)
  else .mapAny tm

mutual

/-- Embedding of `Decode` (src/resp3/decoder.go): reads the tag byte and
dispatches; `fuel` only bounds recursion depth and is an embedding artifact
(`Decode` below supplies enough). -/
def decodeF : Nat → List Char → DOut RVal × List Char
  | 0, buf => (.fail .outOfFuel, buf)
  | _f + 1, [] => (.fail .eof, [])
  | _f + 1, '+' :: rest =>
      match readLineCRLF rest with
      | (.error e, r) => (.fail (remapEOF e), r)
      | (.ok line, r) => (.ok (.str line), r)
  | _f + 1, '-' :: rest =>
      match readLineCRLF rest with
      | (.error e, r) => (.fail (remapEOF e), r)
      | (.ok line, r) => (.ok (.errv line), r)
  | _f + 1, ':' :: rest =>
      match readLineCRLF rest with
      | (.error e, r) => (.fail (remapEOF e), r)
      | (.ok line, r) =>
        if line = [] then (.fail .unexpectedEOF, r)
        else
          match goAtoi line with
          | none => (.fail (.atoiErr line), r)
          | some n => (.ok (.int n), r)
  | _f + 1, ',' :: rest =>
      match readLineCRLF rest with
      | (.error e, r) => (.fail (remapEOF e), r)
      | (.ok line, r) =>
        if goParseFloatOk line then (.ok (.float line), r)
        else (.fail (.floatErr line), r)
  | _f + 1, '$' :: rest =>
      match readLineCRLF rest with
      | (.error e, r) => (.fail (remapEOF e), r)
      | (.ok lenStr, r1) =>
        match goAtoi lenStr with
        | none => (.fail (.atoiErr lenStr), r1)
        | some n =>
          if n = -1 then (.ok .null, r1)
          else if (r1.length : Int) < n + 2 then (.fail .unexpectedEOF, r1)
          else if n < 0 then (.panicked, r1)
          else
            let payload := r1.take n.toNat
            match goDiscard2 (r1.drop n.toNat) with
            | (.ok _, r2) => (.ok (.str payload), r2)
            | (.error e, r2) => (.fail e, r2)
  | _f + 1, '=' :: rest =>
      match readLineCRLF rest with
      | (.error e, r) => (.fail (remapEOF e), r)
      | (.ok lenStr, r1) =>
        match goAtoi lenStr with
        | none => (.fail (.atoiErr lenStr), r1)
        | some n =>
          if n = -1 then (.ok .null, r1)
          else if n = 0 then (.ok (.str []), r1)
          else if (r1.length : Int) < n + 2 then (.fail .unexpectedEOF, r1)
          else if n < 0 then (.panicked, r1)
          else
            let payload := r1.take n.toNat
            (.ok (.str payload), (goDiscard2 (r1.drop n.toNat)).2)
  | f + 1, '*' :: rest =>
      match readLineCRLF rest with
      | (.error e, r) => (.fail (remapEOF e), r)
      | (.ok cntStr, r1) =>
        match goAtoi cntStr with
        | none => (.fail (.atoiErr cntStr), r1)
        | some n =>
          if n = -1 then (.ok .null, r1)
          else if n < 0 then (.panicked, r1)
          else
            match decodeArrLoop f r1 n.toNat [] with
            | (.ok acc, r2) => (.ok (.arr acc), r2)
            | (.fail e, r2) => (.fail e, r2)
            | (.panicked, r2) => (.panicked, r2)
  | _f + 1, '#' :: rest =>
      match rest with
      | [] => (.fail .unexpectedEOF, [])
      | b :: r1 => (.ok (.bool (b = 't')), (goDiscard2 r1).2)
  | f + 1, '%' :: rest =>
      let lr := readLineCRLF rest
      let line := match lr.1 with
        | .ok l => l
        | .error _ => []
      let size : Int := (goAtoi line).getD 0
      if size.tdiv 2 < 0 then (.panicked, lr.2)
      else
        match decodeMapLoop f lr.2 (mapIters size) [] true true with
        | (.ok acc, r2) => (.ok (mapFinish acc.1 acc.2.1 acc.2.2), r2)
        | (.fail e, r2) => (.fail e, r2)
        | (.panicked, r2) => (.panicked, r2)
  | _f + 1, '!' :: rest =>
      match readLineCRLF rest with
      | (.error e, r) => (.fail (remapEOF e), r)
      | (.ok lenStr, r1) =>
        match goAtoi lenStr with
        | none => (.fail (.atoiErr lenStr), r1)
        | some n =>
          if (r1.length : Int) < n + 2 then (.fail .unexpectedEOF, r1)
          else if n < 0 then (.panicked, r1)
          else
            let payload := r1.take n.toNat
            (.ok (.errv payload), (goDiscard2 (r1.drop n.toNat)).2)
  | _f + 1, '_' :: rest =>
      (.ok .null, (goDiscard2 rest).2)
  | _f + 1, c :: rest =>
      (.fail (.unsupportedTag c), rest)

/-- The '*' case's element loop: before each element, zero buffered bytes is
reported as partial; a child error attributable to exhaustion is remapped. -/
def decodeArrLoop : Nat → List Char → Nat → List RVal → DOut (List RVal) × List Char
  | 0, buf, _, _ => (.fail .outOfFuel, buf)
  | _f + 1, buf, 0, acc => (.ok acc, buf)
  | f + 1, buf, iters + 1, acc =>
    if buf.isEmpty then (.fail .unexpectedEOF, buf)
    else
      match decodeF f buf with
      | (.fail e, r) => (.fail (remapEOF e), r)
      | (.panicked, r) => (.panicked, r)
      | (.ok v, r1) => decodeArrLoop f r1 iters (acc ++ [v])

/-- The '%' case's pair loop: decodes key then value, skips a pair whose key
is nil, updates the two classification flags, and assigns into the temporary
map (a runtime panic if the key is unhashable). -/
def decodeMapLoop : Nat → List Char → Nat → List (RVal × RVal) → Bool → Bool →
    DOut (List (RVal × RVal) × Bool × Bool) × List Char
  | 0, buf, _, _, _, _ => (.fail .outOfFuel, buf)
  | _f + 1, buf, 0, tm, aS, aI => (.ok (tm, aS, aI), buf)
  | f + 1, buf, iters + 1, tm, aS, aI =>
    if buf.isEmpty then (.fail .unexpectedEOF, buf)
    else
      match decodeF f buf with
      | (.fail e, r) => (.fail (remapEOF e), r)
      | (.panicked, r) => (.panicked, r)
      | (.ok k, r1) =>
        match decodeF f r1 with
        | (.fail e, r2) => (.fail (remapEOF e), r2)
        | (.panicked, r2) => (.panicked, r2)
        | (.ok v, r2) =>
          if k.isNull then decodeMapLoop f r2 iters tm aS aI
          else
            let fl := updFlags k aS aI
            if k.isHashable then
              decodeMapLoop f r2 iters (insertAssoc tm k v) fl.1 fl.2
            else (.panicked, r2)

end

/-- Top-level `Decode` on the presently available bytes; the fuel bound
exceeds any possible recursion depth for the given input. -/
def Decode (buf : List Char) : DOut RVal × List Char :=
  decodeF (2 * buf.length + 8) buf

/-! ## Encoder embedding (src/resp3/encoder.go)

Go values in the encoder's input universe are a mutual inductive so that the
recursive `Encode` is structural.  Covered cases: `string`, the integer
widths (one `Int` case — Go formats them all with the same decimal rule),
`bool`, `nil`, `error`, `time.Time` (by its millisecond timestamp),
`[]interface` sequences, structs (field name, value, in declaration order),
and a stand-in for inputs with no encoding rule (e.g. a channel).  Floats and
the concrete-typed slice/map cases are outside every claim in scope and are
not modelled. -/

mutual
inductive GoVal where
  | str (s : List Char)
  | int (n : Int)
  | bool (b : Bool)
  | null
  | errv (msg : List Char)
  | time (ms : Int)
  | arr (xs : GoValList)
  | strct (fields : GoFields)
  | unsupported (tyName : List Char)
inductive GoValList where
  | nil
  | cons (v : GoVal) (t : GoValList)
inductive GoFields where
  | nil
  | cons (name : List Char) (v : GoVal) (t : GoFields)
end

/-- Encode-side error: the unsupported-type error naming the offending type. -/
inductive EErr where
  | unsupportedType (tyName : List Char)
  deriving DecidableEq

def CRLF : List Char := ['\r', '\n']

/-- Decimal digits of a natural number, most significant first; the fuel is
an embedding artifact and `natDigits` supplies enough. -/
def natDigitsF : Nat → Nat → List Char
  | 0, _ => []
  | f + 1, m =>
    if m < 10 then [Char.ofNat (48 + m)]
    else natDigitsF f (m / 10) ++ [Char.ofNat (48 + m % 10)]

def natDigits (m : Nat) : List Char := natDigitsF (m + 1) m

/-- Embedding of Go's decimal integer formatting (`strconv.Itoa`,
`fmt.Sprintf` with the decimal verb, `strconv.FormatInt`). -/
def goItoa (n : Int) : List Char :=
  if n < 0 then '-' :: natDigits (-n).toNat else natDigits n.toNat

def GoValList.length : GoValList → Nat
  | .nil => 0
  | .cons _ t => 1 + t.length

def GoFields.length : GoFields → Nat
  | .nil => 0
  | .cons _ _ t => 1 + t.length

/-- Embedding of `reflect.StructField.IsExported` for the names in scope:
the first character is upper-case. -/
def goIsExported : List Char → Bool
  | [] => false
  | c :: _ => c.isUpper

mutual

/-- Embedding of `Encode` (src/resp3/encoder.go): strings of length at most
16 as Simple Strings and longer ones as Bulk Strings; integers and
timestamps as `:` records; booleans, nil, errors as their records;
`[]interface` as a `*` record over the per-element rule (`encodeArrElem`
below restates it); structs via the `%` header over `encodeStructFields`
(`encodeStruct` below restates it); anything else is the unsupported-type
error. -/
def Encode : GoVal → Except EErr (List Char)
  | .str s =>
    if s.length ≤ 16 then .ok ('+' :: (s ++ CRLF))
    else .ok ('$' :: (natDigits s.length ++ CRLF ++ s ++ CRLF))
  | .int n => .ok (':' :: (goItoa n ++ CRLF))
  | .bool b => .ok (if b then '#' :: 't' :: CRLF else '#' :: 'f' :: CRLF)
  | .null => .ok ('_' :: CRLF)
  | .errv msg => .ok ('-' :: (msg ++ CRLF))
  | .time ms => .ok (':' :: (goItoa ms ++ CRLF))
  | .arr xs =>
    match encodeArrElems xs with
    | .error e => .error e
    | .ok body => .ok ('*' :: (natDigits xs.length ++ CRLF ++ body))
  | .strct fields =>
    match encodeStructFields fields with
    | .error e => .error e
    | .ok body => .ok ('%' :: (natDigits (2 * fields.length) ++ CRLF ++ body))
  | .unsupported ty => .error (.unsupportedType ty)

/-- The `[]interface` loop: a string element of length at most 12 is emitted
directly as a Simple String, every other element goes through `Encode`;
elements concatenate in order and the first element error aborts. -/
def encodeArrElems : GoValList → Except EErr (List Char)
  | .nil => .ok []
  | .cons v t =>
    match
      (match v with
       | .str s => if s.length ≤ 12 then .ok ('+' :: (s ++ CRLF)) else Encode v
       | _ => Encode v : Except EErr (List Char)) with
    | .error e => .error e
    | .ok ev =>
      match encodeArrElems t with
      | .error e => .error e
      | .ok rest => .ok (ev ++ rest)

/-- The `encodeStruct` loop: for each exported field only, the field name as
a Simple String followed by the encoded field value; unexported fields are
skipped; the first encoding error aborts. -/
def encodeStructFields : GoFields → Except EErr (List Char)
  | .nil => .ok []
  | .cons name v t =>
    if goIsExported name then
      match Encode v with
      | .error e => .error e
      | .ok ev =>
        match encodeStructFields t with
        | .error e => .error e
        | .ok rest => .ok ('+' :: (name ++ CRLF ++ ev ++ rest))
    else encodeStructFields t

end

/-- The `[]interface` loop body as a standalone function: a string element of
length at most 12 is a Simple String directly, everything else goes through
`Encode`. -/
def encodeArrElem : GoVal → Except EErr (List Char)
  | .str s =>
    if s.length ≤ 12 then .ok ('+' :: (s ++ CRLF)) else Encode (.str s)
  | v => Encode v

/-- Embedding of `encodeStruct`: the `%` header declares twice the total
field count (`reflect.Value.NumField`, which counts unexported fields too),
then the loop body from `encodeStructFields`. -/
def encodeStruct (fields : GoFields) : Except EErr (List Char) :=
  match encodeStructFields fields with
  | .error e => .error e
  | .ok body => .ok ('%' :: (natDigits (2 * fields.length) ++ CRLF ++ body))

/-- The inlined element rule inside `encodeArrElems` is `encodeArrElem`. -/
theorem encodeArrElems_cons (v : GoVal) (t : GoValList) :
    encodeArrElems (.cons v t) =
      match encodeArrElem v with
      | .error e => .error e
      | .ok ev =>
        match encodeArrElems t with
        | .error e => .error e
        | .ok rest => .ok (ev ++ rest) := by
  cases v <;> simp [encodeArrElems, encodeArrElem]

/-- The struct case of `Encode` is `encodeStruct`. -/
theorem Encode_strct (fields : GoFields) :
    Encode (.strct fields) = encodeStruct fields := rfl

/-! ## Specification-side definitions

These restate, in the spec's own after-the-fact style, what the decoder's
'%' case and the encoder's struct case are claimed to compute; the claims
compare them with the embedded code. -/

/-- Reference pair collector for the '%' loop: decodes the same key/value
sequence as `decodeMapLoop` (same exhaustion checks and error remap) but
returns the pairs in decode order, with no flag tracking, no null-dropping
and no map building.  Fuel bookkeeping matches `decodeMapLoop`. -/
def decodePairsF : Nat → List Char → Nat → DOut (List (RVal × RVal)) × List Char
  | 0, buf, _ => (.fail .outOfFuel, buf)
  | _f + 1, buf, 0 => (.ok [], buf)
  | f + 1, buf, iters + 1 =>
    if buf.isEmpty then (.fail .unexpectedEOF, buf)
    else
      match decodeF f buf with
      | (.fail e, r) => (.fail (remapEOF e), r)
      | (.panicked, r) => (.panicked, r)
      | (.ok k, r1) =>
        match decodeF f r1 with
        | (.fail e, r2) => (.fail (remapEOF e), r2)
        | (.panicked, r2) => (.panicked, r2)
        | (.ok v, r2) =>
          match decodePairsF f r2 iters with
          | (.ok ps, r3) => (.ok ((k, v) :: ps), r3)
          | (.fail e, r3) => (.fail e, r3)
          | (.panicked, r3) => (.panicked, r3)

/-- One pair of the '%' loop's accumulator update, on an already decoded
pair: skip a null key, update the classification flags, then assign into the
map (`none` is the runtime panic on an unhashable key). -/
def pairStep (acc : List (RVal × RVal) × Bool × Bool) (kv : RVal × RVal) :
    Option (List (RVal × RVal) × Bool × Bool) :=
  if kv.1.isNull then some acc
  else
    let fl := updFlags kv.1 acc.2.1 acc.2.2
    if kv.1.isHashable then some (insertAssoc acc.1 kv.1 kv.2, fl.1, fl.2)
    else none

def foldPairs (acc : List (RVal × RVal) × Bool × Bool) :
    List (RVal × RVal) → Option (List (RVal × RVal) × Bool × Bool)
  | [] => some acc
  | kv :: rest =>
    match pairStep acc kv with
    | some acc2 => foldPairs acc2 rest
    | none => none

/-- Modelled from the spec (section 4.4 '%' row and section 4.5): after all
pairs are decoded, drop every pair whose key is Null, build the map from the
surviving pairs in order (duplicates overwrite), and classify: all surviving
keys strings gives the text-keyed map, else all integers gives the
integer-keyed map, else the mixed-key map; with no surviving pairs both
checks hold and the text-keyed branch is taken. -/
def specMapClassify (ps : List (RVal × RVal)) : RVal :=
  let survivors := ps.filter fun p => !p.1.isNull
  let m := survivors.foldl (fun a p => insertAssoc a p.1 p.2) []
  if survivors.all fun p => p.1.isStr then .mapStr (extractStrPairs m)
  else if survivors.all fun p => p.1.isInt then .mapInt (extractIntPairs m)
  else .mapAny m

/-- Top-level keys of a decoded map container, as `RVal`s. -/
def RVal.topKeys : RVal → List RVal
  | .mapStr m => m.map fun p => .str p.1
  | .mapInt m => m.map fun p => .int p.1
  | .mapAny m => m.map fun p => p.1
  | _ => []

def goFieldsToList : GoFields → List (List Char × GoVal)
  | .nil => []
  | .cons name v t => (name, v) :: goFieldsToList t

/-- Emits, for each listed field in order, its name as a Simple String
followed by its own encoding. -/
def specFieldsBody : List (List Char × GoVal) → Except EErr (List Char)
  | [] => .ok []
  | f :: t =>
    match Encode f.2 with
    | .error e => .error e
    | .ok ev =>
      match specFieldsBody t with
      | .error e => .error e
      | .ok rest => .ok ('+' :: (f.1 ++ CRLF ++ ev ++ rest))

/-- Modelled from the spec (section 4.3 rule 10): a struct's wire body is,
for exactly the exported fields in declaration order, the field name as a
Simple String followed by the field's own encoding. -/
def specStructBody (fields : List (List Char × GoVal)) : Except EErr (List Char) :=
  specFieldsBody (fields.filter fun f => goIsExported f.1)

/-! ## Supporting lemmas -/

theorem remapEOF_ne_eof (e : RErr) : remapEOF e ≠ .eof := by
  cases e <;> simp [remapEOF]

theorem goDiscard2_ok {l : List Char} (h : 2 ≤ l.length) :
    goDiscard2 l = (.ok (), l.drop 2) := by
  simp [goDiscard2, h]

theorem goDiscard2_error {l : List Char} {e : RErr} {r : List Char}
    (h : goDiscard2 l = (.error e, r)) : l.length < 2 := by
  by_cases h2 : 2 ≤ l.length
  · rw [goDiscard2_ok h2] at h
    exact absurd h (by simp)
  · omega

theorem splitAtNL_of_not_mem {l : List Char} (h : '\n' ∉ l) :
    splitAtNL l = none := by
  induction l with
  | nil => rfl
  | cons c t ih =>
    simp only [List.mem_cons, not_or] at h
    have hcn : ¬c = '\n' := fun hc => h.1 (Eq.symm hc)
    simp only [splitAtNL, if_neg hcn, ih h.2, Option.map_none']

theorem splitAtNL_append {ds : List Char} (h : '\n' ∉ ds) (tail : List Char) :
    splitAtNL (ds ++ '\r' :: '\n' :: tail) = some (ds ++ ['\r', '\n'], tail) := by
  induction ds with
  | nil => simp [splitAtNL]
  | cons c t ih =>
    simp only [List.mem_cons, not_or] at h
    have hcn : ¬c = '\n' := fun hc => h.1 (Eq.symm hc)
    simp only [List.cons_append, splitAtNL, if_neg hcn, List.append_eq,
      ih h.2, Option.map_some']

/-- Reading a line from a sign/digit token followed by CR-LF yields the token
and leaves the tail. -/
theorem readLineCRLF_crlf {ds : List Char} (h : '\n' ∉ ds) (tail : List Char) :
    readLineCRLF (ds ++ '\r' :: '\n' :: tail) = (.ok ds, tail) := by
  have hr : (ds ++ ['\r', '\n']).reverse = '\n' :: '\r' :: ds.reverse := by simp
  simp only [readLineCRLF, splitAtNL_append h, hr, List.reverse_reverse]

/-- Reading a line from a newline-free buffer exhausts the source. -/
theorem readLineCRLF_no_nl {buf : List Char} (h : '\n' ∉ buf) :
    readLineCRLF buf = (.error .eof, []) := by
  simp only [readLineCRLF, splitAtNL_of_not_mem h]

theorem digitsToNat_append_singleton (l : List Char) (c : Char) :
    digitsToNat (l ++ [c]) = digitsToNat l * 10 + (c.toNat - 48) := by
  simp [digitsToNat, List.foldl_append]

theorem char_ofNat_digit {r : Nat} (h : r < 10) :
    (Char.ofNat (48 + r)).isDigit = true ∧ (Char.ofNat (48 + r)).toNat = 48 + r := by
  interval_cases r <;> exact ⟨by decide, by decide⟩

theorem natDigitsF_spec :
    ∀ f m, m < f → natDigitsF f m ≠ [] ∧
      (∀ c ∈ natDigitsF f m, c.isDigit = true) ∧
      digitsToNat (natDigitsF f m) = m := by
  intro f
  induction f with
  | zero => intro m h; omega
  | succ f ih =>
    intro m h
    by_cases h10 : m < 10
    · obtain ⟨hd, ht⟩ := char_ofNat_digit h10
      refine ⟨by simp [natDigitsF, h10], ?_, ?_⟩
      · intro c hc
        simp only [natDigitsF, if_pos h10, List.mem_singleton] at hc
        rw [hc]; exact hd
      · simp [natDigitsF, h10, digitsToNat, ht]
    · have hm0 : 0 < m := by omega
      have hlt : m / 10 < m := Nat.div_lt_self hm0 (by omega)
      have h1 : m / 10 < f := by omega
      obtain ⟨hne, hdig, hval⟩ := ih (m / 10) h1
      have hr : m % 10 < 10 := Nat.mod_lt _ (by omega)
      obtain ⟨hd, ht⟩ := char_ofNat_digit hr
      simp only [natDigitsF, if_neg h10]
      refine ⟨by simp, ?_, ?_⟩
      · intro c hc
        rcases List.mem_append.mp hc with hc1 | hc1
        · exact hdig c hc1
        · rw [List.mem_singleton.mp hc1]; exact hd
      · rw [digitsToNat_append_singleton, hval, ht]
        omega

theorem natDigits_spec (m : Nat) :
    natDigits m ≠ [] ∧ (∀ c ∈ natDigits m, c.isDigit = true) ∧
      digitsToNat (natDigits m) = m :=
  natDigitsF_spec (m + 1) m (Nat.lt_succ_self m)

theorem parseDigits_natDigits (m : Nat) : parseDigits (natDigits m) = some m := by
  obtain ⟨hne, hdig, hval⟩ := natDigits_spec m
  simp [parseDigits, hne, List.all_eq_true.mpr hdig, hval]

theorem parseDigits_some {l : List Char} {m : Nat} (h : parseDigits l = some m) :
    l ≠ [] ∧ (∀ c ∈ l, c.isDigit = true) ∧ m = digitsToNat l := by
  by_cases h1 : l = []
  · simp [parseDigits, h1] at h
  · by_cases h2 : l.all Char.isDigit
    · refine ⟨h1, fun c hc => List.all_eq_true.mp h2 c hc, ?_⟩
      simp only [parseDigits, if_neg h1, if_pos h2, Option.some.injEq] at h
      omega
    · simp [parseDigits, h1, h2] at h

theorem goAtoi_natDigits {m : Nat} (h : (m : Int) ≤ int64Max) :
    goAtoi (natDigits m) = some (m : Int) := by
  obtain ⟨hne, hdig, -⟩ := natDigits_spec m
  rcases hl : natDigits m with - | ⟨c, t⟩
  · exact absurd hl hne
  · have hc : c.isDigit = true := hdig c (by rw [hl]; exact List.mem_cons_self c t)
    have hplus : ¬c = '+' := by
      intro hc2; rw [hc2] at hc; exact absurd hc (by decide)
    have hminus : ¬c = '-' := by
      intro hc2; rw [hc2] at hc; exact absurd hc (by decide)
    have hp : parseDigits (c :: t) = some m := by
      rw [← hl]; exact parseDigits_natDigits m
    simp only [goAtoi, if_neg hplus, if_neg hminus, hp, Option.some_bind, if_pos h]

theorem goAtoi_goItoa {n : Int} (hmin : int64Min ≤ n) (hmax : n ≤ int64Max) :
    goAtoi (goItoa n) = some n := by
  by_cases hneg : n < 0
  · have h1 : ((-n).toNat : Int) = -n := Int.toNat_of_nonneg (by omega)
    have hp : parseDigits (natDigits (-n).toNat) = some (-n).toNat :=
      parseDigits_natDigits _
    have hu : goAtoi ('-' :: natDigits (-n).toNat)
        = (parseDigits (natDigits (-n).toNat)).bind fun m =>
            if int64Min ≤ -(m : Int) then some (-(m : Int)) else none := by
      simp [goAtoi]
    rw [goItoa, if_pos hneg, hu, hp, Option.some_bind, h1, neg_neg, if_pos hmin]
  · have h0 : 0 ≤ n := by omega
    have h1 : (n.toNat : Int) = n := Int.toNat_of_nonneg h0
    rw [goItoa, if_neg hneg]
    rw [goAtoi_natDigits (by rw [h1]; exact hmax), h1]

theorem goAtoi_not_nl {l : List Char} {n : Int} (h : goAtoi l = some n) :
    '\n' ∉ l := by
  intro hmem
  cases l with
  | nil => simp at hmem
  | cons c rest =>
    simp only [goAtoi] at h
    by_cases h1 : c = '+'
    · rw [if_pos h1] at h
      cases hp : parseDigits rest with
      | none => rw [hp] at h; simp at h
      | some m =>
        obtain ⟨-, hall, -⟩ := parseDigits_some hp
        rcases List.mem_cons.mp hmem with hc | hr
        · rw [h1] at hc; exact absurd hc (by decide)
        · exact absurd (hall _ hr) (by decide)
    · by_cases h2 : c = '-'
      · rw [if_neg h1, if_pos h2] at h
        cases hp : parseDigits rest with
        | none => rw [hp] at h; simp at h
        | some m =>
          obtain ⟨-, hall, -⟩ := parseDigits_some hp
          rcases List.mem_cons.mp hmem with hc | hr
          · rw [h2] at hc; exact absurd hc (by decide)
          · exact absurd (hall _ hr) (by decide)
      · rw [if_neg h1, if_neg h2] at h
        cases hp : parseDigits (c :: rest) with
        | none => rw [hp] at h; simp at h
        | some m =>
          obtain ⟨-, hall, -⟩ := parseDigits_some hp
          exact absurd (hall _ hmem) (by decide)

/-! ## Unfolding equations for the decoder

One equation per tag case, with symbolic fuel, so proofs can reason about a
single case without unfolding the whole dispatch. -/

theorem decodeF_nil (f : Nat) : decodeF (f + 1) [] = (.fail .eof, []) := rfl

theorem decodeF_plus (f : Nat) (rest : List Char) :
    decodeF (f + 1) ('+' :: rest) =
      (match readLineCRLF rest with
       | (.error e, r) => (.fail (remapEOF e), r)
       | (.ok line, r) => (.ok (.str line), r)) := rfl

theorem decodeF_minus (f : Nat) (rest : List Char) :
    decodeF (f + 1) ('-' :: rest) =
      (match readLineCRLF rest with
       | (.error e, r) => (.fail (remapEOF e), r)
       | (.ok line, r) => (.ok (.errv line), r)) := rfl

theorem decodeF_colon (f : Nat) (rest : List Char) :
    decodeF (f + 1) (':' :: rest) =
      (match readLineCRLF rest with
       | (.error e, r) => (.fail (remapEOF e), r)
       | (.ok line, r) =>
         if line = [] then (.fail .unexpectedEOF, r)
         else
           match goAtoi line with
           | none => (.fail (.atoiErr line), r)
           | some n => (.ok (.int n), r)) := rfl

theorem decodeF_comma (f : Nat) (rest : List Char) :
    decodeF (f + 1) (',' :: rest) =
      (match readLineCRLF rest with
       | (.error e, r) => (.fail (remapEOF e), r)
       | (.ok line, r) =>
         if goParseFloatOk line then (.ok (.float line), r)
         else (.fail (.floatErr line), r)) := rfl

theorem decodeF_dollar (f : Nat) (rest : List Char) :
    decodeF (f + 1) ('$' :: rest) =
      (match readLineCRLF rest with
       | (.error e, r) => (.fail (remapEOF e), r)
       | (.ok lenStr, r1) =>
         match goAtoi lenStr with
         | none => (.fail (.atoiErr lenStr), r1)
         | some n =>
           if n = -1 then (.ok .null, r1)
           else if (r1.length : Int) < n + 2 then (.fail .unexpectedEOF, r1)
           else if n < 0 then (.panicked, r1)
           else
             match goDiscard2 (r1.drop n.toNat) with
             | (.ok _, r2) => (.ok (.str (r1.take n.toNat)), r2)
             | (.error e, r2) => (.fail e, r2)) := rfl

theorem decodeF_verbatim (f : Nat) (rest : List Char) :
    decodeF (f + 1) ('=' :: rest) =
      (match readLineCRLF rest with
       | (.error e, r) => (.fail (remapEOF e), r)
       | (.ok lenStr, r1) =>
         match goAtoi lenStr with
         | none => (.fail (.atoiErr lenStr), r1)
         | some n =>
           if n = -1 then (.ok .null, r1)
           else if n = 0 then (.ok (.str []), r1)
           else if (r1.length : Int) < n + 2 then (.fail .unexpectedEOF, r1)
           else if n < 0 then (.panicked, r1)
           else (.ok (.str (r1.take n.toNat)), (goDiscard2 (r1.drop n.toNat)).2)) := rfl

theorem decodeF_star (f : Nat) (rest : List Char) :
    decodeF (f + 1) ('*' :: rest) =
      (match readLineCRLF rest with
       | (.error e, r) => (.fail (remapEOF e), r)
       | (.ok cntStr, r1) =>
         match goAtoi cntStr with
         | none => (.fail (.atoiErr cntStr), r1)
         | some n =>
           if n = -1 then (.ok .null, r1)
           else if n < 0 then (.panicked, r1)
           else
             match decodeArrLoop f r1 n.toNat [] with
             | (.ok acc, r2) => (.ok (.arr acc), r2)
             | (.fail e, r2) => (.fail e, r2)
             | (.panicked, r2) => (.panicked, r2)) := rfl

theorem decodeF_hash (f : Nat) (rest : List Char) :
    decodeF (f + 1) ('#' :: rest) =
      (match rest with
       | [] => (.fail .unexpectedEOF, [])
       | b :: r1 => (.ok (.bool (b = 't')), (goDiscard2 r1).2)) := rfl

theorem decodeF_percent (f : Nat) (rest : List Char) :
    decodeF (f + 1) ('%' :: rest) =
      (let lr := readLineCRLF rest
       let line := match lr.1 with
         | .ok l => l
         | .error _ => []
       let size : Int := (goAtoi line).getD 0
       if size.tdiv 2 < 0 then (.panicked, lr.2)
       else
         match decodeMapLoop f lr.2 (mapIters size) [] true true with
         | (.ok acc, r2) => (.ok (mapFinish acc.1 acc.2.1 acc.2.2), r2)
         | (.fail e, r2) => (.fail e, r2)
         | (.panicked, r2) => (.panicked, r2)) := rfl

theorem decodeF_bang (f : Nat) (rest : List Char) :
    decodeF (f + 1) ('!' :: rest) =
      (match readLineCRLF rest with
       | (.error e, r) => (.fail (remapEOF e), r)
       | (.ok lenStr, r1) =>
         match goAtoi lenStr with
         | none => (.fail (.atoiErr lenStr), r1)
         | some n =>
           if (r1.length : Int) < n + 2 then (.fail .unexpectedEOF, r1)
           else if n < 0 then (.panicked, r1)
           else (.ok (.errv (r1.take n.toNat)), (goDiscard2 (r1.drop n.toNat)).2)) := rfl

theorem decodeF_under (f : Nat) (rest : List Char) :
    decodeF (f + 1) ('_' :: rest) = (.ok .null, (goDiscard2 rest).2) := rfl

theorem decodeF_other (f : Nat) (c : Char) (rest : List Char)
    (h1 : c ≠ '+') (h2 : c ≠ '-') (h3 : c ≠ ':') (h4 : c ≠ ',') (h5 : c ≠ '$')
    (h6 : c ≠ '=') (h7 : c ≠ '*') (h8 : c ≠ '#') (h9 : c ≠ '%') (h10 : c ≠ '!')
    (h11 : c ≠ '_') :
    decodeF (f + 1) (c :: rest) = (.fail (.unsupportedTag c), rest) := by
  rw [decodeF.eq_def]
  split <;> first | rfl | simp_all

theorem decodeArrLoop_zero (f : Nat) (buf : List Char) (acc : List RVal) :
    decodeArrLoop (f + 1) buf 0 acc = (.ok acc, buf) := rfl

theorem decodeArrLoop_succ (f : Nat) (buf : List Char) (it : Nat) (acc : List RVal) :
    decodeArrLoop (f + 1) buf (it + 1) acc =
      (if buf.isEmpty then (.fail .unexpectedEOF, buf)
       else
        match decodeF f buf with
        | (.fail e, r) => (.fail (remapEOF e), r)
        | (.panicked, r) => (.panicked, r)
        | (.ok v, r1) => decodeArrLoop f r1 it (acc ++ [v])) := rfl

theorem decodeMapLoop_zero (f : Nat) (buf : List Char) (tm : List (RVal × RVal))
    (aS aI : Bool) : decodeMapLoop (f + 1) buf 0 tm aS aI = (.ok (tm, aS, aI), buf) := rfl

theorem decodeMapLoop_succ (f : Nat) (buf : List Char) (it : Nat)
    (tm : List (RVal × RVal)) (aS aI : Bool) :
    decodeMapLoop (f + 1) buf (it + 1) tm aS aI =
      (if buf.isEmpty then (.fail .unexpectedEOF, buf)
       else
        match decodeF f buf with
        | (.fail e, r) => (.fail (remapEOF e), r)
        | (.panicked, r) => (.panicked, r)
        | (.ok k, r1) =>
          match decodeF f r1 with
          | (.fail e, r2) => (.fail (remapEOF e), r2)
          | (.panicked, r2) => (.panicked, r2)
          | (.ok v, r2) =>
            if k.isNull then decodeMapLoop f r2 it tm aS aI
            else
              if k.isHashable then
                decodeMapLoop f r2 it (insertAssoc tm k v)
                  (updFlags k aS aI).1 (updFlags k aS aI).2
              else (.panicked, r2)) := rfl
/-- Once the tag byte was read, no decode path returns the clean
end-of-input sentinel: only the empty-buffer tag read produces it. -/
theorem decode_no_eof : ∀ fuel : Nat,
    (∀ c buf, (decodeF fuel (c :: buf)).1 ≠ DOut.fail RErr.eof) ∧
    (∀ buf iters acc, (decodeArrLoop fuel buf iters acc).1 ≠ DOut.fail RErr.eof) ∧
    (∀ buf iters tm aS aI,
      (decodeMapLoop fuel buf iters tm aS aI).1 ≠ DOut.fail RErr.eof) := by
  intro fuel
  induction fuel with
  | zero =>
    exact ⟨fun c buf h => by simp [decodeF] at h,
      fun buf iters acc h => by simp [decodeArrLoop] at h,
      fun buf iters tm aS aI h => by simp [decodeMapLoop] at h⟩
  | succ f ih =>
    obtain ⟨ihF, ihA, ihM⟩ := ih
    refine ⟨fun c buf h => ?_, fun buf iters acc h => ?_,
      fun buf iters tm aS aI h => ?_⟩
    · by_cases h1 : c = '+'
      · subst h1; rw [decodeF_plus] at h
        split at h
        · exact remapEOF_ne_eof _ (by simpa using h)
        · simp at h
      by_cases h2 : c = '-'
      · subst h2; rw [decodeF_minus] at h
        split at h
        · exact remapEOF_ne_eof _ (by simpa using h)
        · simp at h
      by_cases h3 : c = ':'
      · subst h3; rw [decodeF_colon] at h
        split at h
        · exact remapEOF_ne_eof _ (by simpa using h)
        · split at h
          · simp at h
          · split at h <;> simp at h
      by_cases h4 : c = ','
      · subst h4; rw [decodeF_comma] at h
        split at h
        · exact remapEOF_ne_eof _ (by simpa using h)
        · split at h <;> simp at h
      by_cases h5 : c = '$'
      · subst h5; rw [decodeF_dollar] at h
        split at h
        · exact remapEOF_ne_eof _ (by simpa using h)
        · split at h
          · simp at h
          · split at h
            · simp at h
            · split at h
              · simp at h
              · split at h
                · simp at h
                · rename_i lenStr r1 n hm1 hlen hneg
                  split at h
                  · simp at h
                  · rename_i e r2 heq
                    have hd := goDiscard2_error heq
                    simp only [List.length_drop] at hd
                    omega
      by_cases h6 : c = '='
      · subst h6; rw [decodeF_verbatim] at h
        split at h
        · exact remapEOF_ne_eof _ (by simpa using h)
        · split at h
          · simp at h
          · split at h
            · simp at h
            · split at h
              · simp at h
              · split at h
                · simp at h
                · split at h <;> simp at h
      by_cases h7 : c = '*'
      · subst h7; rw [decodeF_star] at h
        split at h
        · exact remapEOF_ne_eof _ (by simpa using h)
        · split at h
          · simp at h
          · split at h
            · simp at h
            · split at h
              · simp at h
              · split at h
                · simp at h
                · rename_i e r2 heq
                  exact absurd
                    (show (decodeArrLoop f _ _ _).1 = DOut.fail RErr.eof by
                      rw [heq]; simpa using h)
                    (ihA _ _ _)
                · simp at h
      by_cases h8 : c = '#'
      · subst h8; rw [decodeF_hash] at h
        split at h <;> simp at h
      by_cases h9 : c = '%'
      · subst h9; rw [decodeF_percent] at h
        dsimp only [] at h
        split at h
        · simp at h
        · split at h
          · simp at h
          · rename_i e r2 heq
            exact absurd
              (show (decodeMapLoop f _ _ _ _ _).1 = DOut.fail RErr.eof by
                rw [heq]; simpa using h)
              (ihM _ _ _ _ _)
          · simp at h
      by_cases h10 : c = '!'
      · subst h10; rw [decodeF_bang] at h
        split at h
        · exact remapEOF_ne_eof _ (by simpa using h)
        · split at h
          · simp at h
          · split at h
            · simp at h
            · split at h <;> simp at h
      by_cases h11 : c = '_'
      · subst h11; rw [decodeF_under] at h
        simp at h
      rw [decodeF_other f c buf h1 h2 h3 h4 h5 h6 h7 h8 h9 h10 h11] at h
      simp at h
    · cases iters with
      | zero => rw [decodeArrLoop_zero] at h; simp at h
      | succ it =>
        rw [decodeArrLoop_succ] at h
        split at h
        · simp at h
        · split at h
          · exact remapEOF_ne_eof _ (by simpa using h)
          · simp at h
          · exact ihA _ _ _ h
    · cases iters with
      | zero => rw [decodeMapLoop_zero] at h; simp at h
      | succ it =>
        rw [decodeMapLoop_succ] at h
        split at h
        · simp at h
        · split at h
          · exact remapEOF_ne_eof _ (by simpa using h)
          · simp at h
          · split at h
            · exact remapEOF_ne_eof _ (by simpa using h)
            · simp at h
            · split at h
              · exact ihM _ _ _ _ _ h
              · split at h
                · exact ihM _ _ _ _ _ h
                · simp at h

/-! ## Claim theorems -/

theorem fuel_succ (L : Nat) : 2 * L + 8 = 2 * L + 7 + 1 := rfl

theorem fuel_succ2 (L : Nat) : 2 * L + 7 = 2 * L + 6 + 1 := rfl

/-- C3: a source with zero bytes available returns the clean end-of-input
signal with a nil value, never partial-input, never malformed. -/
theorem c3_empty_source_eof : Decode [] = (.fail .eof, []) := rfl

/-- C7: decoding the exact bytes of the null Bulk String yields Null with no
error; decoding the empty Bulk String yields the empty string; the two
results are distinct. -/
theorem c7_null_vs_empty :
    Decode "$-1\r\n".toList = (.ok .null, []) ∧
    Decode "$0\r\n\r\n".toList = (.ok (.str []), []) ∧
    RVal.null ≠ RVal.str [] :=
  ⟨rfl, rfl, fun h => RVal.noConfusion h⟩

/-- C10: a declared length or count below -1 reaches a negative-size
allocation and panics; the decoder is not total and the malformed error is
not its only non-success outcome. -/
theorem c10_negative_allocation_panics :
    Decode "*-2\r\n".toList = (.panicked, []) ∧
    Decode "$-3\r\nxx\r\n".toList = (.panicked, "xx\r\n".toList) :=
  ⟨rfl, rfl⟩

/-- C1: a Bulk String record whose length line declares a nonnegative length
with fewer than length-plus-two bytes available after the length line is
reported as partial-input, never malformed and never a truncated success. -/
theorem c1_bulk_short_input (ds tail : List Char) (n : Int)
    (hA : goAtoi ds = some n) (hn : 0 ≤ n)
    (hshort : (tail.length : Int) < n + 2) :
    (Decode ('$' :: (ds ++ '\r' :: '\n' :: tail))).1 = .fail .unexpectedEOF := by
  have hnl : '\n' ∉ ds := goAtoi_not_nl hA
  have hne : ¬n = -1 := by omega
  rw [Decode, fuel_succ]
  simp only [decodeF_dollar, readLineCRLF_crlf hnl, hA, if_neg hne,
    if_pos hshort]

/-- C1 witness: the spec's partial Bulk String example, six declared bytes
with only three supplied. -/
theorem c1_bulk_short_input_witness :
    goAtoi ['6'] = some 6 ∧ (0 : Int) ≤ 6 ∧
      (("foo".toList).length : Int) < 6 + 2 ∧
      (Decode ("$6\r\nfoo".toList)).1 = .fail .unexpectedEOF :=
  ⟨by decide, by decide, by decide,
    c1_bulk_short_input ['6'] "foo".toList 6 (by decide) (by decide) (by decide)⟩

/-- C2 counterexample: with the bare '%' tag and an exhausted source the
header-line read fails with the end-of-input error, but Decode ignores it
and returns a successful empty string-keyed map instead of partial-input. -/
theorem c2_counterexample_percent_header :
    Decode ['%'] = (.ok (.mapStr []), []) := rfl

/-- C2 (amended): once the tag byte was read, Decode never returns the clean
end-of-input signal, and a read failure from source exhaustion surfaces as
partial-input in every tag case except the '%' header read (whose errors are
ignored): the eight line-first tags report partial when the remaining bytes
hold no newline, and the Boolean tag reports partial when its payload byte
is missing. -/
theorem c2_exhaustion_signal :
    (∀ fuel c buf, (decodeF fuel (c :: buf)).1 ≠ DOut.fail RErr.eof) ∧
    (∀ c buf,
      (c = '+' ∨ c = '-' ∨ c = ':' ∨ c = ',' ∨ c = '$' ∨ c = '=' ∨
        c = '*' ∨ c = '!') →
      '\n' ∉ buf → (Decode (c :: buf)).1 = DOut.fail RErr.unexpectedEOF) ∧
    (Decode ['#']).1 = DOut.fail RErr.unexpectedEOF := by
  refine ⟨fun fuel c buf => (decode_no_eof fuel).1 c buf, ?_, by rfl⟩
  intro c buf htag hnl
  have hr := readLineCRLF_no_nl hnl
  have hc : ∀ l : List Char, 2 * (l.length + 1) + 8 = 2 * l.length + 9 + 1 :=
    fun l => by omega
  rcases htag with h | h | h | h | h | h | h | h <;> subst h <;>
    simp only [Decode, List.length_cons, hc, decodeF_plus, decodeF_minus,
      decodeF_colon, decodeF_comma, decodeF_dollar, decodeF_verbatim,
      decodeF_star, decodeF_bang, hr, remapEOF]

/-- C2 witness: concrete instances of each conjunct. -/
theorem c2_exhaustion_signal_witness :
    (decodeF 3 ('+' :: [])).1 ≠ DOut.fail RErr.eof ∧
    (Decode ('$' :: "abc".toList)).1 = DOut.fail RErr.unexpectedEOF ∧
    (Decode ['#']).1 = DOut.fail RErr.unexpectedEOF :=
  ⟨c2_exhaustion_signal.1 3 '+' [],
    c2_exhaustion_signal.2.1 '$' "abc".toList
      (Or.inr (Or.inr (Or.inr (Or.inr (Or.inl rfl))))) (by decide),
    c2_exhaustion_signal.2.2⟩

/-- C4 counterexample: a complete CRLF-terminated pair-count line after '%'
that fails integer parsing does not produce an error: Decode returns a
successful empty string-keyed map. -/
theorem c4_counterexample_percent_count :
    Decode "%abc\r\n".toList = (.ok (.mapStr []), []) ∧
    goAtoi "abc".toList = none :=
  ⟨rfl, rfl⟩

/-- C4 (amended): a complete CRLF-terminated length or count line that fails
base-10 parsing is a malformed-wire error fatal to the call for the '$',
'=', '*' and '!' tags; for '%' the parse error is silently discarded, the
count defaults to zero, and Decode returns a successful empty string-keyed
map. -/
theorem c4_malformed_count :
    (∀ c ds tail, (c = '$' ∨ c = '=' ∨ c = '*' ∨ c = '!') → '\n' ∉ ds →
      goAtoi ds = none →
      Decode (c :: (ds ++ '\r' :: '\n' :: tail)) = (.fail (.atoiErr ds), tail)) ∧
    (∀ ds tail, '\n' ∉ ds → goAtoi ds = none →
      Decode ('%' :: (ds ++ '\r' :: '\n' :: tail)) = (.ok (.mapStr []), tail)) := by
  constructor
  · intro c ds tail htag hnl hA
    rcases htag with h | h | h | h <;> subst h <;>
      · rw [Decode, fuel_succ]
        simp only [decodeF_dollar, decodeF_verbatim, decodeF_star,
          decodeF_bang, readLineCRLF_crlf hnl, hA]
  · intro ds tail hnl hA
    rw [Decode, fuel_succ, decodeF_percent]
    dsimp only []
    rw [readLineCRLF_crlf hnl]
    simp only [hA, Option.getD_none]
    rw [if_neg (by decide : ¬(Int.tdiv 0 2 < 0))]
    rw [show mapIters 0 = 0 from rfl, fuel_succ2, decodeMapLoop_zero]
    simp [mapFinish, extractStrPairs]

/-- C4 witness: concrete instances of both conjuncts at a non-numeric
length/count line. -/
theorem c4_malformed_count_witness :
    Decode ('$' :: ("abc".toList ++ '\r' :: '\n' :: [])) =
      (.fail (.atoiErr "abc".toList), []) ∧
    Decode ('%' :: ("zz".toList ++ '\r' :: '\n' :: [])) = (.ok (.mapStr []), []) :=
  ⟨c4_malformed_count.1 '$' "abc".toList [] (Or.inl rfl) (by decide) (by decide),
    c4_malformed_count.2 "zz".toList [] (by decide) (by decide)⟩

theorem natDigits_no_nl (m : Nat) : '\n' ∉ natDigits m := fun hmem =>
  absurd ((natDigits_spec m).2.1 _ hmem) (by decide)

theorem goItoa_no_nl (n : Int) : '\n' ∉ goItoa n := by
  intro hmem
  rw [goItoa] at hmem
  by_cases h : n < 0
  · rw [if_pos h] at hmem
    rcases List.mem_cons.mp hmem with hc | hr
    · exact absurd hc (by decide)
    · exact natDigits_no_nl _ hr
  · rw [if_neg h] at hmem
    exact natDigits_no_nl _ hmem

theorem goItoa_ne_nil (n : Int) : goItoa n ≠ [] := by
  rw [goItoa]
  by_cases h : n < 0
  · simp [if_pos h]
  · simp only [if_neg h]
    exact (natDigits_spec _).1

/-- C6 counterexample: a 13-byte string element of a mixed array is emitted
as a Simple String by the fall-through to the general 16-byte rule, not as
the Bulk String the claim demands. -/
theorem c6_counterexample_13_byte_elem :
    Encode (.arr (.cons (.str "abcdefghijklm".toList) .nil)) =
      .ok "*1\r\n+abcdefghijklm\r\n".toList ∧
    ("abcdefghijklm".toList).length = 13 ∧
    ("*1\r\n+abcdefghijklm\r\n".toList : List Char) ≠
      "*1\r\n$13\r\nabcdefghijklm\r\n".toList :=
  ⟨rfl, rfl, by decide⟩

/-- C6 (amended): inside a mixed array the 12-byte special case emits the
same bytes the general rule would, so a string element is a Simple String up
to length 16 and a Bulk String beyond, exactly as when standing alone. -/
theorem c6_arr_string_threshold :
    (∀ s : List Char, encodeArrElem (.str s) = Encode (.str s)) ∧
    (∀ s : List Char, encodeArrElem (.str s) =
      .ok (if s.length ≤ 16 then '+' :: (s ++ CRLF)
           else '$' :: (natDigits s.length ++ CRLF ++ s ++ CRLF))) := by
  have key : ∀ s : List Char, encodeArrElem (.str s) =
      .ok (if s.length ≤ 16 then '+' :: (s ++ CRLF)
           else '$' :: (natDigits s.length ++ CRLF ++ s ++ CRLF)) := by
    intro s
    by_cases h12 : s.length ≤ 12
    · have h16 : s.length ≤ 16 := by omega
      simp [encodeArrElem, h12, h16]
    · simp only [encodeArrElem, if_neg h12, Encode]
      split <;> rfl
  refine ⟨fun s => ?_, key⟩
  rw [key s]
  simp only [Encode]
  split <;> rfl

/-- C9 counterexample: a struct with one exported and one unexported field
declares size 4 in its '%' header while emitting a single key/value pair, so
the header is not twice the number of pairs actually emitted (which would
give size 2). -/
theorem c9_counterexample_unexported_field :
    Encode (.strct (.cons "Name".toList (.str "A".toList)
        (.cons "age".toList (.int 1) .nil))) =
      .ok "%4\r\n+Name\r\n+A\r\n".toList ∧
    ("%4\r\n+Name\r\n+A\r\n".toList : List Char) ≠ "%2\r\n+Name\r\n+A\r\n".toList :=
  ⟨rfl, by decide⟩

/-- C9 (amended): a struct encodes as a '%' record whose body is exactly the
exported fields in declaration order (name as a Simple String, value by its
own rule, unexported fields skipped) but whose declared size is twice the
total field count including the skipped unexported fields. -/
theorem encodeStructFields_spec : ∀ fs : GoFields,
    encodeStructFields fs = specStructBody (goFieldsToList fs)
  | .nil => rfl
  | .cons name v t => by
    have ih := encodeStructFields_spec t
    by_cases h : goIsExported name
    · have hfil : ((name, v) :: goFieldsToList t).filter
          (fun f => goIsExported f.1)
          = (name, v) :: ((goFieldsToList t).filter fun f => goIsExported f.1) := by
        simp [List.filter_cons, h]
      simp only [encodeStructFields, if_pos h, goFieldsToList, specStructBody,
        hfil, specFieldsBody]
      rw [ih]
      rfl
    · have hfil : ((name, v) :: goFieldsToList t).filter
          (fun f => goIsExported f.1)
          = (goFieldsToList t).filter fun f => goIsExported f.1 := by
        simp [List.filter_cons, h]
      simp only [encodeStructFields, if_neg h, goFieldsToList, specStructBody,
        hfil]
      rw [ih]
      rfl

theorem c9_struct_encoding (fields : GoFields) :
    encodeStruct fields =
      (specStructBody (goFieldsToList fields)).map
        (fun body => '%' :: (natDigits (2 * fields.length) ++ CRLF ++ body)) := by
  rw [encodeStruct, encodeStructFields_spec]
  cases specStructBody (goFieldsToList fields) <;> rfl

/-- C8 counterexample: the three-byte string with a bare LF contains no CRLF
pair, yet encoding it (as a Simple String, length at most 16) produces bytes
whose decode reports partial-input instead of returning the string. -/
theorem c8_counterexample_bare_lf :
    Encode (.str "a\nb".toList) = .ok "+a\nb\r\n".toList ∧
    (Decode "+a\nb\r\n".toList).1 = .fail .unexpectedEOF ∧
    '\r' ∉ "a\nb".toList ∧ ("a\nb".toList).length ≤ 16 :=
  ⟨rfl, rfl, by decide, by decide⟩

/-- C8 (amended): every scalar in the non-lossy set round-trips through
Encode then Decode — strings whose length fits the wire's int64 length field
and which, when short enough for Simple String framing (length at most 16),
contain no LF byte; int64 integers; booleans; and Null. -/
theorem c8_scalar_round_trip :
    (∀ s : List Char, (s.length ≤ 16 → '\n' ∉ s) → (s.length : Int) ≤ int64Max →
      ∃ bs, Encode (.str s) = .ok bs ∧ Decode bs = (.ok (.str s), [])) ∧
    (∀ n : Int, int64Min ≤ n → n ≤ int64Max →
      ∃ bs, Encode (.int n) = .ok bs ∧ Decode bs = (.ok (.int n), [])) ∧
    (∀ b : Bool, ∃ bs, Encode (.bool b) = .ok bs ∧ Decode bs = (.ok (.bool b), [])) ∧
    (∃ bs, Encode .null = .ok bs ∧ Decode bs = (.ok .null, [])) := by
  refine ⟨?_, ?_, ?_, ⟨'_' :: CRLF, rfl, rfl⟩⟩
  · intro s hlf hbound
    by_cases h16 : s.length ≤ 16
    · refine ⟨'+' :: (s ++ CRLF), by simp [Encode, h16], ?_⟩
      have hnl : '\n' ∉ s := hlf h16
      rw [CRLF, Decode, fuel_succ]
      simp only [decodeF_plus, readLineCRLF_crlf hnl]
    · refine ⟨'$' :: (natDigits s.length ++ CRLF ++ s ++ CRLF),
        by simp [Encode, h16], ?_⟩
      have hnlA : '\n' ∉ natDigits s.length := natDigits_no_nl _
      rw [CRLF]
      rw [show natDigits s.length ++ ['\r', '\n'] ++ s ++ ['\r', '\n']
          = natDigits s.length ++ '\r' :: '\n' :: (s ++ ['\r', '\n']) from by simp]
      rw [Decode, fuel_succ]
      simp only [decodeF_dollar, readLineCRLF_crlf hnlA, goAtoi_natDigits hbound]
      rw [if_neg (show ¬(s.length : Int) = -1 from by omega)]
      rw [if_neg (show ¬((s ++ ['\r', '\n']).length : Int) < (s.length : Int) + 2
        from by simp [List.length_append])]
      rw [if_neg (show ¬(s.length : Int) < 0 from by omega)]
      rw [show ((s.length : Int)).toNat = s.length from Int.toNat_natCast s.length]
      rw [List.drop_left, List.take_left]
      rfl
  · intro n hmin hmax
    refine ⟨':' :: (goItoa n ++ CRLF), rfl, ?_⟩
    rw [CRLF, Decode, fuel_succ]
    simp only [decodeF_colon, readLineCRLF_crlf (goItoa_no_nl n)]
    rw [if_neg (goItoa_ne_nil n)]
    simp only [goAtoi_goItoa hmin hmax]
  · intro b
    cases b
    · exact ⟨'#' :: 'f' :: CRLF, rfl, rfl⟩
    · exact ⟨'#' :: 't' :: CRLF, rfl, rfl⟩

/-- C8 witness: concrete round trips for each scalar conjunct. -/
theorem c8_scalar_round_trip_witness :
    (∃ bs, Encode (.str "hello".toList) = .ok bs ∧
      Decode bs = (.ok (.str "hello".toList), [])) ∧
    (∃ bs, Encode (.int (-42)) = .ok bs ∧ Decode bs = (.ok (.int (-42)), [])) ∧
    (∃ bs, Encode (.bool true) = .ok bs ∧ Decode bs = (.ok (.bool true), [])) ∧
    (∃ bs, Encode .null = .ok bs ∧ Decode bs = (.ok .null, [])) :=
  ⟨c8_scalar_round_trip.1 "hello".toList (fun _ => by decide) (by decide),
    c8_scalar_round_trip.2.1 (-42) (by decide) (by decide),
    c8_scalar_round_trip.2.2.1 true,
    c8_scalar_round_trip.2.2.2⟩


theorem decodePairsF_zero (f : Nat) (buf : List Char) :
    decodePairsF (f + 1) buf 0 = (.ok [], buf) := rfl

theorem decodePairsF_succ (f : Nat) (buf : List Char) (it : Nat) :
    decodePairsF (f + 1) buf (it + 1) =
      (if buf.isEmpty then (.fail .unexpectedEOF, buf)
       else
        match decodeF f buf with
        | (.fail e, r) => (.fail (remapEOF e), r)
        | (.panicked, r) => (.panicked, r)
        | (.ok k, r1) =>
          match decodeF f r1 with
          | (.fail e, r2) => (.fail (remapEOF e), r2)
          | (.panicked, r2) => (.panicked, r2)
          | (.ok v, r2) =>
            match decodePairsF f r2 it with
            | (.ok ps, r3) => (.ok ((k, v) :: ps), r3)
            | (.fail e, r3) => (.fail e, r3)
            | (.panicked, r3) => (.panicked, r3)) := rfl

/-- The '%' pair loop is the reference pair collector followed by the pure
accumulator fold, on every run where both succeed. -/
theorem decodeMapLoop_pairs : ∀ (f : Nat) (iters : Nat) (buf : List Char)
    (tm : List (RVal × RVal)) (aS aI : Bool) (ps : List (RVal × RVal))
    (rest : List Char) (acc : List (RVal × RVal) × Bool × Bool),
    decodePairsF f buf iters = (.ok ps, rest) →
    foldPairs (tm, aS, aI) ps = some acc →
    decodeMapLoop f buf iters tm aS aI = (.ok acc, rest) := by
  intro f
  induction f with
  | zero =>
    intro iters buf tm aS aI ps rest acc hp hf
    exact absurd hp (by simp [decodePairsF])
  | succ f ih =>
    intro iters buf tm aS aI ps rest acc hp hf
    cases iters with
    | zero =>
      rw [decodePairsF_zero] at hp
      injection hp with h1 h2
      injection h1 with h3
      subst h3; subst h2
      simp only [foldPairs, Option.some.injEq] at hf
      subst hf
      exact decodeMapLoop_zero f buf tm aS aI
    | succ it =>
      rw [decodePairsF_succ] at hp
      split at hp
      · exact absurd hp (by simp)
      · rename_i hne
        split at hp
        · exact absurd hp (by simp)
        · exact absurd hp (by simp)
        · rename_i k r1 heqK
          split at hp
          · exact absurd hp (by simp)
          · exact absurd hp (by simp)
          · rename_i v r2 heqV
            split at hp
            · rename_i ps' r3 heqP
              injection hp with h1 h2
              injection h1 with h3
              subst h3; subst h2
              simp only [decodeMapLoop_succ, if_neg hne, heqK, heqV]
              by_cases hk : k.isNull
              · simp only [foldPairs, pairStep, if_pos hk] at hf
                simp only [if_pos hk]
                exact ih it r2 tm aS aI ps' r3 acc heqP hf
              · simp only [if_neg hk]
                by_cases hh : k.isHashable
                · simp only [foldPairs, pairStep, if_neg hk, if_pos hh] at hf
                  simp only [if_pos hh]
                  exact ih it r2 _ _ _ ps' r3 acc heqP hf
                · simp only [foldPairs, pairStep, if_neg hk, if_neg hh] at hf
                  exact absurd hf (by simp)
            · exact absurd hp (by simp)
            · exact absurd hp (by simp)

theorem updFlags_eq (k : RVal) (aS aI : Bool) :
    updFlags k aS aI = (aS && k.isStr, aI && k.isInt) := by
  cases k <;> simp [updFlags, RVal.isStr, RVal.isInt]

/-- The fold's final accumulator: the temporary map is the insertion fold of
the non-null pairs and each flag records whether every surviving key has the
matching scalar case. -/
theorem foldPairs_spec : ∀ (ps : List (RVal × RVal)) (tm : List (RVal × RVal))
    (aS aI : Bool) (acc : List (RVal × RVal) × Bool × Bool),
    foldPairs (tm, aS, aI) ps = some acc →
    acc.1 = ((ps.filter fun p => !p.1.isNull).foldl
      (fun a p => insertAssoc a p.1 p.2) tm) ∧
    acc.2.1 = (aS && ((ps.filter fun p => !p.1.isNull).all fun p => p.1.isStr)) ∧
    acc.2.2 = (aI && ((ps.filter fun p => !p.1.isNull).all fun p => p.1.isInt)) := by
  intro ps
  induction ps with
  | nil =>
    intro tm aS aI acc hf
    simp only [foldPairs, Option.some.injEq] at hf
    subst hf
    simp
  | cons kv ps ih =>
    intro tm aS aI acc hf
    by_cases hk : kv.1.isNull
    · simp only [foldPairs, pairStep, if_pos hk] at hf
      have := ih tm aS aI acc hf
      simpa [List.filter_cons, hk] using this
    · by_cases hh : kv.1.isHashable
      · simp only [foldPairs, pairStep, if_neg hk, if_pos hh] at hf
        have := ih (insertAssoc tm kv.1 kv.2)
          (updFlags kv.1 aS aI).1 (updFlags kv.1 aS aI).2 acc hf
        rw [updFlags_eq] at this
        simp only [List.filter_cons, hk, Bool.not_false, if_pos,
          List.foldl_cons, List.all_cons]
        refine ⟨this.1, ?_, ?_⟩
        · rw [this.2.1]; simp [Bool.and_assoc]
        · rw [this.2.2]; simp [Bool.and_assoc]
      · simp only [foldPairs, pairStep, if_neg hk, if_neg hh] at hf
        exact absurd hf (by simp)

theorem foldPairs_total : ∀ (ps : List (RVal × RVal))
    (acc : List (RVal × RVal) × Bool × Bool),
    (∀ p ∈ ps, p.1.isNull = true ∨ p.1.isHashable = true) →
    ∃ acc2, foldPairs acc ps = some acc2 := by
  intro ps
  induction ps with
  | nil => exact fun acc _ => ⟨acc, rfl⟩
  | cons kv ps ih =>
    intro acc hps
    by_cases hk : kv.1.isNull
    · simp only [foldPairs, pairStep, if_pos hk]
      exact ih acc fun p hp => hps p (List.mem_cons_of_mem kv hp)
    · have hh : kv.1.isHashable = true := by
        rcases hps kv (List.mem_cons_self kv ps) with h | h
        · exact absurd h hk
        · exact h
      simp only [foldPairs, pairStep, if_neg hk, if_pos hh]
      exact ih _ fun p hp => hps p (List.mem_cons_of_mem kv hp)

/-- Classification at the end of the loop agrees with the spec's
classify-after-decode description. -/
theorem mapFinish_spec (ps : List (RVal × RVal))
    (acc : List (RVal × RVal) × Bool × Bool)
    (h : foldPairs ([], true, true) ps = some acc) :
    mapFinish acc.1 acc.2.1 acc.2.2 = specMapClassify ps := by
  obtain ⟨h1, h2, h3⟩ := foldPairs_spec ps [] true true acc h
  simp only [mapFinish, specMapClassify, h1, h2, h3, Bool.true_and]

theorem insertAssoc_keys : ∀ (m : List (RVal × RVal)) (k v : RVal)
    (p : RVal × RVal), p ∈ insertAssoc m k v →
    p.1 ∈ m.map Prod.fst ∨ p.1 = k := by
  intro m
  induction m with
  | nil =>
    intro k v p hp
    simp only [insertAssoc, List.mem_singleton] at hp
    exact Or.inr (by rw [hp])
  | cons q t ih =>
    intro k v p hp
    simp only [insertAssoc] at hp
    split at hp
    · rcases List.mem_cons.mp hp with h | h
      · refine Or.inl ?_
        simp only [List.map_cons, List.mem_cons]
        exact Or.inl (by rw [h])
      · refine Or.inl ?_
        simp only [List.map_cons, List.mem_cons]
        exact Or.inr (List.mem_map_of_mem Prod.fst h)
    · rcases List.mem_cons.mp hp with h | h
      · refine Or.inl ?_
        simp only [List.map_cons, List.mem_cons]
        exact Or.inl (by rw [h])
      · rcases ih k v p h with h2 | h2
        · refine Or.inl ?_
          simp only [List.map_cons, List.mem_cons]
          exact Or.inr h2
        · exact Or.inr h2

theorem foldl_insert_keys : ∀ (l : List (RVal × RVal))
    (init : List (RVal × RVal)) (p : RVal × RVal),
    p ∈ l.foldl (fun a q => insertAssoc a q.1 q.2) init →
    p.1 ∈ init.map Prod.fst ∨ ∃ q ∈ l, p.1 = q.1 := by
  intro l
  induction l with
  | nil => exact fun init p hp => Or.inl (List.mem_map_of_mem Prod.fst hp)
  | cons q t ih =>
    intro init p hp
    rw [List.foldl_cons] at hp
    rcases ih _ p hp with h | h
    · rw [List.mem_map] at h
      obtain ⟨p2, hp2, hpe⟩ := h
      rcases insertAssoc_keys init q.1 q.2 p2 hp2 with h2 | h2
      · exact Or.inl (by rw [← hpe]; exact h2)
      · exact Or.inr ⟨q, List.mem_cons_self q t, by rw [← hpe, h2]⟩
    · obtain ⟨q2, hq2, he⟩ := h
      exact Or.inr ⟨q2, List.mem_cons_of_mem q hq2, he⟩

/-- No output form of the classification carries a Null key. -/
theorem specMapClassify_no_null_key (ps : List (RVal × RVal)) :
    RVal.null ∉ (specMapClassify ps).topKeys := by
  intro hmem
  simp only [specMapClassify] at hmem
  split at hmem
  · simp only [RVal.topKeys, List.mem_map] at hmem
    obtain ⟨x, -, hx⟩ := hmem
    exact RVal.noConfusion hx
  · split at hmem
    · simp only [RVal.topKeys, List.mem_map] at hmem
      obtain ⟨x, -, hx⟩ := hmem
      exact RVal.noConfusion hx
    · simp only [RVal.topKeys, List.mem_map] at hmem
      obtain ⟨p, hp, hpe⟩ := hmem
      rcases foldl_insert_keys _ [] p hp with h | h
      · simp at h
      · obtain ⟨q, hq, he⟩ := h
        have hqn := List.of_mem_filter hq
        rw [← he, hpe] at hqn
        simp [RVal.isNull] at hqn

/-- A map with zero surviving pairs classifies as the text-keyed map. -/
theorem specMapClassify_empty (ps : List (RVal × RVal))
    (h : ps.filter (fun p => !p.1.isNull) = []) :
    specMapClassify ps = .mapStr [] := by
  simp [specMapClassify, h, extractStrPairs]

/-- C5: for every successfully decoded '%' record the returned container is
the spec's classify-after-decode function of the decoded pair sequence: all
non-null keys strings gives a string-keyed map, else all int64 an int64-keyed
map, else a generic map; null-keyed pairs are absent from every output form;
and zero surviving pairs yields the string-keyed empty map. -/
theorem c5_map_classification (f : Nat) (ds buf : List Char) (n : Int)
    (ps : List (RVal × RVal)) (rest : List Char)
    (hA : goAtoi ds = some n) (hn : 0 ≤ n)
    (hps : decodePairsF f buf (mapIters n) = (.ok ps, rest))
    (hkeys : ∀ p ∈ ps, p.1.isNull = true ∨ p.1.isHashable = true) :
    decodeF (f + 1) ('%' :: (ds ++ '\r' :: '\n' :: buf)) =
      (.ok (specMapClassify ps), rest) ∧
    RVal.null ∉ (specMapClassify ps).topKeys ∧
    ((ps.filter fun p => !p.1.isNull) = [] → specMapClassify ps = .mapStr []) := by
  refine ⟨?_, specMapClassify_no_null_key ps, specMapClassify_empty ps⟩
  have hnl : '\n' ∉ ds := goAtoi_not_nl hA
  obtain ⟨acc, hacc⟩ := foldPairs_total ps ([], true, true) hkeys
  have hloop := decodeMapLoop_pairs f (mapIters n) buf [] true true ps rest acc
    hps hacc
  rw [decodeF_percent]
  dsimp only []
  rw [readLineCRLF_crlf hnl]
  dsimp only []
  simp only [hA, Option.getD_some]
  rw [if_neg (show ¬(Int.tdiv n 2 < 0) from by
    have := Int.tdiv_nonneg hn (by norm_num : (0 : Int) ≤ 2); omega)]
  rw [hloop]
  dsimp only []
  rw [mapFinish_spec ps acc hacc]

/-- C5 witness: one integer-keyed pair decoded from concrete bytes. -/
theorem c5_map_classification_witness :
    decodePairsF 8 (":1\r\n+a\r\n".toList) (mapIters 2) =
      (.ok [(RVal.int 1, RVal.str ['a'])], []) ∧
    (decodeF 9 ('%' :: ("2".toList ++ '\r' :: '\n' :: ":1\r\n+a\r\n".toList)) =
      (.ok (specMapClassify [(RVal.int 1, RVal.str ['a'])]), []) ∧
    RVal.null ∉ (specMapClassify [(RVal.int 1, RVal.str ['a'])]).topKeys ∧
    (([(RVal.int 1, RVal.str ['a'])].filter fun p => !p.1.isNull) = [] →
      specMapClassify [(RVal.int 1, RVal.str ['a'])] = .mapStr [])) :=
  ⟨rfl, c5_map_classification 8 "2".toList (":1\r\n+a\r\n".toList) 2
    [(RVal.int 1, RVal.str ['a'])] [] rfl (by decide) rfl
    (fun p hp => Or.inr (by rw [List.mem_singleton.mp hp]; rfl))⟩
